import Mathlib

/-!
Verification of the `ts_export` module-walk, solver and rendering components.

The Rust source is shallowly embedded: pure functions become Lean functions,
`Result`-returning code returns `Except`, iterator pipelines become the
corresponding `List` operations, and the external collaborators (the
`ProcessSpawner` lookup, the serde `Container::from_ast` interpreter and the
`ExporterContext` export functions) are parameters of the embedding.
-/

namespace TsExport

/-- Model of `syn::Path` as used by the module walk (`process.rs`): the
sequence of segment identifiers; `path.segments.push(...)` becomes appending
one identifier. -/
abbrev ModPath := List String

/-- Model of `syn::Item` exactly as far as `ProcessModule::launch`
(process.rs:63-76) inspects it: struct and enum items carry the payload that
becomes a `DeriveInput` (type `D`), `Item::Type` carries an `ItemType` payload
(type `A`), `Item::Mod` carries its identifier and optional inline content,
and every other item kind (functions, impls, uses, consts, ...) falls into the
wildcard arm, modelled by `other`. -/
inductive Item (D A : Type) where
  | struct (d : D)
  | enum (d : D)
  | typeAlias (a : A)
  | mod (ident : String) (content : Option (List (Item D A)))
  | other
deriving Repr

/-- Model of `ProcessModuleResultData` (process.rs:26-29). `S` is the
`ExportStatement` type, whose contents the walk never inspects. -/
structure ProcessModuleResultData (S : Type) where
  statements : List S
  path : ModPath
deriving Repr, DecidableEq

/-- Model of `ProcessModuleResult` (process.rs:31-34): a node's own data plus
its owned children. -/
inductive ProcessModuleResult (S : Type) where
  | mk (data : ProcessModuleResultData S) (children : List (ProcessModuleResult S))

/-- The `data` field of a result node. -/
def ProcessModuleResult.data : ProcessModuleResult S → ProcessModuleResultData S
  | .mk d _ => d

/-- The `children` field of a result node. -/
def ProcessModuleResult.children : ProcessModuleResult S → List (ProcessModuleResult S)
  | .mk _ c => c

mutual
/-- Model of `extractor` (process.rs:152-157): `all` is the accumulator vector;
each child is flattened into it first (in order), then the node's own data is
pushed. -/
def extractor : List (ProcessModuleResultData S) → ProcessModuleResult S →
    List (ProcessModuleResultData S)
  | all, .mk d children => extractorGo all children ++ [d]
termination_by all t => sizeOf t
/-- The `for_each` loop of `extractor` over the children list. -/
def extractorGo : List (ProcessModuleResultData S) → List (ProcessModuleResult S) →
    List (ProcessModuleResultData S)
  | all, [] => all
  | all, c :: cs => extractorGo (extractor all c) cs
termination_by all l => sizeOf l
end

mutual
/-- The post-order traversal of a result tree, stated from the spec's words:
every child node's data (children taken in declaration order) precedes the
parent's own data. -/
def postorder : ProcessModuleResult S → List (ProcessModuleResultData S)
  | .mk d children => postorderList children ++ [d]
termination_by t => sizeOf t
/-- Concatenation of the post-order traversals of a forest, in order. -/
def postorderList : List (ProcessModuleResult S) → List (ProcessModuleResultData S)
  | [] => []
  | c :: cs => postorder c ++ postorderList cs
termination_by l => sizeOf l
end

mutual
/-- The number of nodes of a result tree. -/
def numNodes : ProcessModuleResult S → Nat
  | .mk _ children => numNodesList children + 1
termination_by t => sizeOf t
/-- The number of nodes of a forest. -/
def numNodesList : List (ProcessModuleResult S) → Nat
  | [] => 0
  | c :: cs => numNodes c + numNodesList cs
termination_by l => sizeOf l
end

mutual
theorem extractor_eq_postorder {S : Type} (all : List (ProcessModuleResultData S))
    (t : ProcessModuleResult S) : extractor all t = all ++ postorder t := by
  cases t with
  | mk d children =>
    rw [extractor, postorder, extractorGo_eq_postorderList, List.append_assoc]
termination_by sizeOf t
theorem extractorGo_eq_postorderList {S : Type} (all : List (ProcessModuleResultData S))
    (l : List (ProcessModuleResult S)) : extractorGo all l = all ++ postorderList l := by
  cases l with
  | nil => rw [extractorGo, postorderList, List.append_nil]
  | cons c cs =>
    rw [extractorGo, postorderList, extractorGo_eq_postorderList,
      extractor_eq_postorder, List.append_assoc]
termination_by sizeOf l
end

mutual
theorem postorder_length {S : Type} (t : ProcessModuleResult S) :
    (postorder t).length = numNodes t := by
  cases t with
  | mk d children =>
    rw [postorder, numNodes, List.length_append, postorderList_length,
      List.length_singleton]
termination_by sizeOf t
theorem postorderList_length {S : Type} (l : List (ProcessModuleResult S)) :
    (postorderList l).length = numNodesList l := by
  cases l with
  | nil => rw [postorderList, numNodesList, List.length_nil]
  | cons c cs =>
    rw [postorderList, numNodesList, List.length_append, postorder_length,
      postorderList_length]
termination_by sizeOf l
end

/-- Model of `ProcessModule` (process.rs:20-24). `ICtx` is the
`ImportContext`, which the walk only builds and hands to the exporter. -/
structure ProcessModule (D A ICtx : Type) where
  current_path : ModPath
  items : List (Item D A)
  import_context : ICtx

/-- The external collaborators of the walk, bundled: the spawner trait object
(`ProcessSpawner::create_process`, process.rs:185-187), serde's
`Container::from_ast` interpreter (an external crate), the two
`ExporterContext` export functions and `ImportContext` construction (their
sources `exporter.rs` / `import.rs` are outside the modelled core), and a
designated error used when the fuel bounding recursion depth runs out (the
Rust recursion is bounded only by the call stack). -/
structure ProcessEnv (S D A C ICtx E : Type) where
  mkImportContext : List (Item D A) → ICtx
  spawner : ModPath → Option (ProcessModule D A ICtx)
  exportAlias : ICtx → A → Except E (List S)
  exportContainer : ICtx → C → Except E (List S)
  fromAst : D → Option C
  outOfFuel : E

/-- Model of `ProcessModule::new` (process.rs:36-47): stores the path and
items and builds the import context from the items. -/
def ProcessModule.new (env : ProcessEnv S D A C ICtx E) (path : ModPath)
    (items : List (Item D A)) : ProcessModule D A ICtx :=
  { current_path := path, items := items, import_context := env.mkImportContext items }

/-- The `derive_inputs` vector of `ProcessModule::launch` (process.rs:59-76):
struct and enum items, tagged with their original index. The Rust single-pass
`for_each` pushes in enumeration order, which is this `filterMap` over the
enumerated items. -/
def deriveInputs (items : List (Item D A)) : List (Nat × D) :=
  items.enum.filterMap fun p =>
    match p.2 with
    | .struct d => some (p.1, d)
    | .enum d => some (p.1, d)
    | _ => none

/-- The `type_aliases` vector of `ProcessModule::launch` (process.rs:59-76). -/
def typeAliases (items : List (Item D A)) : List (Nat × A) :=
  items.enum.filterMap fun p =>
    match p.2 with
    | .typeAlias a => some (p.1, a)
    | _ => none

/-- The `mod_declarations` vector of `ProcessModule::launch` (process.rs:59-76):
module items keep no index. -/
def modDeclarations (items : List (Item D A)) : List (String × Option (List (Item D A))) :=
  items.filterMap fun it =>
    match it with
    | .mod ident content => some (ident, content)
    | _ => none

/-- The `filter_map` building the child process modules (process.rs:78-91): an
inline body recurses through `ProcessModule::new` on the extended path, a
bodiless declaration asks the spawner, and a spawner decline (`None`) drops
the branch. -/
def spawnedModules (env : ProcessEnv S D A C ICtx E) (path : ModPath)
    (items : List (Item D A)) : List (ProcessModule D A ICtx) :=
  (modDeclarations items).filterMap fun m =>
    match m.2 with
    | some its => some (ProcessModule.new env (path ++ [m.1]) its)
    | none => env.spawner (path ++ [m.1])

/-- The `containers` vector (process.rs:95-102): derive inputs whose serde
container metadata interprets, keeping the original index; a `None` from
`Container::from_ast` drops the declaration. -/
def containersOf (env : ProcessEnv S D A C ICtx E) (items : List (Item D A)) :
    List (Nat × C) :=
  (deriveInputs items).filterMap fun p => (env.fromAst p.2).map fun c => (p.1, c)

/-- The collected, still unsorted `(index, statements)` list (process.rs:120-133):
alias results first, then container results, mirroring the `chain` of the two
iterators; the first error in that order aborts, as `collect::<Result<_,_>>`
does. -/
def moduleStatementPairs (env : ProcessEnv S D A C ICtx E) (ictx : ICtx)
    (items : List (Item D A)) : Except E (List (Nat × List S)) := do
  let aliasStmts ← (typeAliases items).mapM fun p =>
    (env.exportAlias ictx p.2).map fun s => (p.1, s)
  let containerStmts ← (containersOf env items).mapM fun p =>
    (env.exportContainer ictx p.2).map fun s => (p.1, s)
  pure (aliasStmts ++ containerStmts)

/-- The `sort_by_key(|(index, _)| *index)` step (process.rs:135). Rust's
`sort_by_key` is a stable sort; it is modelled by the stable
`List.insertionSort` on the index. -/
def sortStatements (pairs : List (Nat × List S)) : List (Nat × List S) :=
  List.insertionSort (fun p q => p.1 ≤ q.1) pairs

/-- Model of `ProcessModule::launch` (process.rs:49-149): children are
resolved first (a failing child aborts, as `collect::<Result<_,_>>?` does),
then the module's own declarations are exported, merged, sorted by original
index and flattened. `fuel` bounds the recursion depth, which Rust bounds
only by the call stack. -/
def ProcessModule.launch (env : ProcessEnv S D A C ICtx E) :
    Nat → ProcessModule D A ICtx → Except E (ProcessModuleResult S)
  | 0, _ => .error env.outOfFuel
  | fuel + 1, pm =>
    match (spawnedModules env pm.current_path pm.items).mapM
        (fun pm' => ProcessModule.launch env fuel pm') with
    | .error e => .error e
    | .ok children =>
      match moduleStatementPairs env pm.import_context pm.items with
      | .error e => .error e
      | .ok pairs =>
        .ok (.mk ⟨(sortStatements pairs).flatMap Prod.snd, pm.current_path⟩ children)

/-- Model of `Process::launch` (process.rs:164-181): the root path is empty,
the root module is built from the top-level items (parsing the source text is
the external parser's job), the walk is launched, and the flattened list is
what the sink's `export_module` receives, element by element, in list order. -/
def processDeliveries (env : ProcessEnv S D A C ICtx E) (fuel : Nat)
    (rootItems : List (Item D A)) : Except E (List (ProcessModuleResultData S)) :=
  (ProcessModule.launch env fuel (ProcessModule.new env [] rootItems)).map
    (extractor [])

/-- A concrete environment for the spec's module-ordering example: every
declaration payload is its own name, exporting a declaration yields the one
statement with that name, every serde container interprets, and the spawner
declines every lookup. -/
def exEnv : ProcessEnv String String String String Unit Unit :=
  ⟨fun _ => (), fun _ => none, fun _ a => .ok [a], fun _ c => .ok [c],
    fun d => some d, ()⟩

/-- The spec's module-ordering example: root items
`[Alias A, Mod m { Alias B }, Struct C]`. -/
def exItems : List (Item String String) :=
  [.typeAlias "A", .mod "m" (some [.typeAlias "B"]), .struct "C"]

/-- The result tree of the module-ordering example: the root node owns the
statements `A, C` in declaration order, its single child `m` owns `B`. -/
def exTree : ProcessModuleResult String :=
  .mk ⟨["A", "C"], []⟩ [.mk ⟨["B"], ["m"]⟩ []]

/-- C1: the flattened sequence delivered to the sink is the post-order
traversal of the result tree. `extractor` computes exactly the post-order
traversal (appended to its accumulator): every child module's data precedes
its parent's and siblings stay in order, because each node contributes the
concatenated traversals of its children (in order) followed by its own data;
each node appears exactly once (the flattening has one entry per tree node).
In particular, root items `[Alias A, Mod m { Alias B }, Struct C]` flatten to
the statement sequence `[B, A, C]`. -/
theorem claim_C1 :
    (∀ (S : Type) (all : List (ProcessModuleResultData S)) (t : ProcessModuleResult S),
      extractor all t = all ++ postorder t)
    ∧ (∀ (S : Type) (d : ProcessModuleResultData S)
        (children : List (ProcessModuleResult S)),
      postorder (ProcessModuleResult.mk d children) = postorderList children ++ [d])
    ∧ (∀ (S : Type) (t : ProcessModuleResult S), (postorder t).length = numNodes t)
    ∧ processDeliveries exEnv 2 exItems = .ok [⟨["B"], ["m"]⟩, ⟨["A", "C"], []⟩]
    ∧ ((extractor [] exTree).flatMap ProcessModuleResultData.statements
        = ["B", "A", "C"]) := by
  refine ⟨fun S all t => extractor_eq_postorder all t,
    fun S d children => by rw [postorder],
    fun S t => postorder_length t, ?_, ?_⟩
  · show Except.map (extractor []) (ProcessModule.launch exEnv 2 (ProcessModule.new exEnv [] exItems)) = _
    have h : ProcessModule.launch exEnv 2 (ProcessModule.new exEnv [] exItems)
        = .ok exTree := rfl
    rw [h]
    simp [extractor, extractorGo, exTree, Except.map]
  · simp [extractor, extractorGo, exTree]

theorem enum_append_singleton {α : Type} (l : List α) (x : α) :
    (l ++ [x]).enum = l.enum ++ [(l.length, x)] := by
  rw [List.enum_append]
  simp [List.enumFrom_cons]

theorem deriveInputs_append {D A : Type} (items : List (Item D A)) (x : Item D A) :
    deriveInputs (items ++ [x]) = deriveInputs items ++
      (match x with
       | .struct d => [(items.length, d)]
       | .enum d => [(items.length, d)]
       | _ => []) := by
  rw [deriveInputs, enum_append_singleton, List.filterMap_append, deriveInputs]
  cases x <;> simp

theorem typeAliases_append {D A : Type} (items : List (Item D A)) (x : Item D A) :
    typeAliases (items ++ [x]) = typeAliases items ++
      (match x with
       | .typeAlias a => [(items.length, a)]
       | _ => []) := by
  rw [typeAliases, enum_append_singleton, List.filterMap_append, typeAliases]
  cases x <;> simp

theorem modDeclarations_append {D A : Type} (items : List (Item D A)) (x : Item D A) :
    modDeclarations (items ++ [x]) = modDeclarations items ++
      (match x with
       | .mod ident content => [(ident, content)]
       | _ => []) := by
  rw [modDeclarations, List.filterMap_append, modDeclarations]
  cases x <;> simp

theorem launch_succ_ok {S D A C ICtx E : Type} {env : ProcessEnv S D A C ICtx E}
    {fuel : Nat} {pm : ProcessModule D A ICtx} {res : ProcessModuleResult S}
    (h : ProcessModule.launch env (fuel + 1) pm = .ok res) :
    ∃ children pairs,
      (spawnedModules env pm.current_path pm.items).mapM
          (fun pm' => ProcessModule.launch env fuel pm') = .ok children
      ∧ moduleStatementPairs env pm.import_context pm.items = .ok pairs
      ∧ res = .mk ⟨(sortStatements pairs).flatMap Prod.snd, pm.current_path⟩ children := by
  revert h
  rw [ProcessModule.launch]
  cases hc : (spawnedModules env pm.current_path pm.items).mapM
      (fun pm' => ProcessModule.launch env fuel pm') with
  | error e => intro h; exact absurd h (by simp)
  | ok children =>
    cases hp : moduleStatementPairs env pm.import_context pm.items with
    | error e => intro h; exact absurd h (by simp)
    | ok pairs =>
      intro h
      exact ⟨children, pairs, rfl, rfl, by simpa using h.symm⟩

/-- C3: a bodiless nested module whose lookup is declined is silently dropped
(first conjunct: appending such a declaration changes nothing about the
parent's launch — same result, no child node, no statements, no error), while
an inline-bodied nested module recurses directly with its own items (second
conjunct: it contributes exactly the child node obtained by recursing into a
`ProcessModule::new` on the extended path with the inline items). -/
theorem claim_C3 :
    ∀ (S D A C ICtx E : Type) (env : ProcessEnv S D A C ICtx E) (path : ModPath)
      (items : List (Item D A)) (ictx : ICtx) (m : String),
    (∀ fuel, env.spawner (path ++ [m]) = none →
      ProcessModule.launch env fuel ⟨path, items ++ [.mod m none], ictx⟩
        = ProcessModule.launch env fuel ⟨path, items, ictx⟩)
    ∧ (∀ fuel its res child,
      ProcessModule.launch env (fuel + 1) ⟨path, items, ictx⟩ = .ok res →
      ProcessModule.launch env fuel (ProcessModule.new env (path ++ [m]) its) = .ok child →
      ProcessModule.launch env (fuel + 1) ⟨path, items ++ [.mod m (some its)], ictx⟩
        = .ok ⟨res.data, res.children ++ [child]⟩) := by
  intro S D A C ICtx E env path items ictx m
  have hpairs : ∀ (x : Item D A), (∀ a, x ≠ .typeAlias a) → (∀ d, x ≠ .struct d) →
      (∀ d, x ≠ .enum d) → ∀ ictx',
      moduleStatementPairs env ictx' (items ++ [x]) = moduleStatementPairs env ictx' items := by
    intro x halias hs he ictx'
    rw [moduleStatementPairs, moduleStatementPairs, typeAliases_append,
      containersOf, deriveInputs_append, containersOf]
    cases x with
    | typeAlias a => exact absurd rfl (halias a)
    | struct d => exact absurd rfl (hs d)
    | enum d => exact absurd rfl (he d)
    | mod ident content => simp
    | other => simp
  constructor
  · intro fuel h
    cases fuel with
    | zero => rfl
    | succ fuel =>
      have hspawn : spawnedModules env path (items ++ [Item.mod m none])
          = spawnedModules env path items := by
        rw [spawnedModules, modDeclarations_append, List.filterMap_append,
          spawnedModules]
        simp [h]
      show ProcessModule.launch env (fuel + 1) _ = ProcessModule.launch env (fuel + 1) _
      rw [ProcessModule.launch, ProcessModule.launch]
      simp only [hspawn,
        hpairs (Item.mod m none) (fun a h => Item.noConfusion h)
          (fun d h => Item.noConfusion h) (fun d h => Item.noConfusion h) ictx]
  · intro fuel its res child hres hchild
    have hspawn : spawnedModules env path (items ++ [Item.mod m (some its)])
        = spawnedModules env path items ++ [ProcessModule.new env (path ++ [m]) its] := by
      rw [spawnedModules, modDeclarations_append, List.filterMap_append,
        spawnedModules]
      simp
    obtain ⟨children, pairs, hc, hp, hres'⟩ := launch_succ_ok hres
    have hone : List.mapM (fun pm' => ProcessModule.launch env fuel pm')
        [ProcessModule.new env (path ++ [m]) its] = Except.ok [child] := by
      rw [List.mapM_cons, hchild, List.mapM_nil]
      rfl
    rw [ProcessModule.launch]
    show (match (spawnedModules env path (items ++ [Item.mod m (some its)])).mapM
        (fun pm' => ProcessModule.launch env fuel pm') with
      | Except.error e => Except.error e
      | Except.ok children =>
        match moduleStatementPairs env ictx (items ++ [Item.mod m (some its)]) with
        | Except.error e => Except.error e
        | Except.ok pairs =>
          Except.ok (ProcessModuleResult.mk
            ⟨(sortStatements pairs).flatMap Prod.snd, path⟩ children)) = _
    rw [hspawn, List.mapM_append, hc, hone,
      hpairs (Item.mod m (some its)) (fun a h => Item.noConfusion h)
        (fun d h => Item.noConfusion h) (fun d h => Item.noConfusion h) ictx]
    simp only [hp] at *
    simp [hres', ProcessModuleResult.data, ProcessModuleResult.children, bind,
      Except.bind, pure, Except.pure]

/-- C9: a struct or enum declaration whose serde container metadata cannot be
interpreted (`Container::from_ast` returns `None`) is silently omitted:
appending such a declaration changes nothing about the module's launch — no
statements, no error, launch still returns whatever it returned without the
declaration. -/
theorem claim_C9 :
    ∀ (S D A C ICtx E : Type) (env : ProcessEnv S D A C ICtx E) (path : ModPath)
      (items : List (Item D A)) (ictx : ICtx) (d : D) (fuel : Nat),
      env.fromAst d = none →
      (ProcessModule.launch env fuel ⟨path, items ++ [.struct d], ictx⟩
          = ProcessModule.launch env fuel ⟨path, items, ictx⟩)
      ∧ (ProcessModule.launch env fuel ⟨path, items ++ [.enum d], ictx⟩
          = ProcessModule.launch env fuel ⟨path, items, ictx⟩) := by
  intro S D A C ICtx E env path items ictx d fuel h
  have key : ∀ (x : Item D A),
      (match x with
       | .mod ident content => [(ident, content)]
       | _ => ([] : List (String × Option (List (Item D A))))) = [] →
      (match x with
       | .typeAlias a => [(items.length, a)]
       | _ => ([] : List (Nat × A))) = [] →
      (match x with
       | .struct d' => [(items.length, d')]
       | .enum d' => [(items.length, d')]
       | _ => ([] : List (Nat × D))).filterMap
          (fun (p : Nat × D) => (env.fromAst p.2).map fun c => (p.1, c)) = [] →
      ProcessModule.launch env fuel ⟨path, items ++ [x], ictx⟩
        = ProcessModule.launch env fuel ⟨path, items, ictx⟩ := by
    intro x hmods hali hcont
    cases fuel with
    | zero => rfl
    | succ fuel =>
      have hspawn : spawnedModules env path (items ++ [x])
          = spawnedModules env path items := by
        rw [spawnedModules, modDeclarations_append, List.filterMap_append,
          hmods, spawnedModules]
        simp
      have hpairs : moduleStatementPairs env ictx (items ++ [x])
          = moduleStatementPairs env ictx items := by
        rw [moduleStatementPairs, moduleStatementPairs, typeAliases_append, hali,
          containersOf, deriveInputs_append, List.filterMap_append, hcont,
          containersOf]
        simp
      show ProcessModule.launch env (fuel + 1) _ = ProcessModule.launch env (fuel + 1) _
      rw [ProcessModule.launch, ProcessModule.launch]
      simp only [hspawn, hpairs]
  exact ⟨key (.struct d) rfl rfl (by simp [h]), key (.enum d) rfl rfl (by simp [h])⟩

/-- C10: an item that is neither a struct, an enum, a type alias nor a module
declaration is ignored entirely: appending it changes nothing about the
module's launch (first conjunct), and a module made only of such items yields
an empty statement list, no children and no error (second conjunct). -/
theorem claim_C10 :
    ∀ (S D A C ICtx E : Type) (env : ProcessEnv S D A C ICtx E) (path : ModPath)
      (ictx : ICtx),
    (∀ (items : List (Item D A)) fuel,
      ProcessModule.launch env fuel ⟨path, items ++ [.other], ictx⟩
        = ProcessModule.launch env fuel ⟨path, items, ictx⟩)
    ∧ (∀ (k fuel : Nat),
      ProcessModule.launch env (fuel + 1)
          ⟨path, List.replicate k (Item.other : Item D A), ictx⟩
        = .ok (.mk ⟨[], path⟩ [])) := by
  intro S D A C ICtx E env path ictx
  have append_other : ∀ (items : List (Item D A)) fuel,
      ProcessModule.launch env fuel ⟨path, items ++ [.other], ictx⟩
        = ProcessModule.launch env fuel ⟨path, items, ictx⟩ := by
    intro items fuel
    cases fuel with
    | zero => rfl
    | succ fuel =>
      have hspawn : spawnedModules env path (items ++ [Item.other])
          = spawnedModules env path items := by
        rw [spawnedModules, modDeclarations_append, List.filterMap_append,
          spawnedModules]
        simp
      have hpairs : moduleStatementPairs env ictx (items ++ [Item.other])
          = moduleStatementPairs env ictx items := by
        rw [moduleStatementPairs, moduleStatementPairs, typeAliases_append,
          containersOf, deriveInputs_append, containersOf]
        simp
      show ProcessModule.launch env (fuel + 1) _ = ProcessModule.launch env (fuel + 1) _
      rw [ProcessModule.launch, ProcessModule.launch]
      simp only [hspawn, hpairs]
  refine ⟨append_other, ?_⟩
  intro k
  induction k with
  | zero => intro fuel; rfl
  | succ k ih =>
    intro fuel
    rw [List.replicate_succ', append_other (List.replicate k Item.other) (fuel + 1)]
    exact ih fuel

theorem mapM_tag {E α β : Type} (f : α → Except E β) :
    ∀ (l : List (Nat × α)) (r : List (Nat × β)),
      l.mapM (fun p => (f p.2).map fun s => (p.1, s)) = .ok r →
      r.map Prod.fst = l.map Prod.fst
      ∧ ∀ q ∈ r, ∃ p ∈ l, p.1 = q.1 ∧ f p.2 = .ok q.2 := by
  intro l
  induction l with
  | nil =>
    intro r h
    rw [List.mapM_nil] at h
    cases h
    simp
  | cons p t ih =>
    intro r h
    rw [List.mapM_cons] at h
    revert h
    cases hf : f p.2 with
    | error e => intro h; exact absurd h (by simp [Except.map, bind, Except.bind])
    | ok b =>
      cases ht : t.mapM (fun p => (f p.2).map fun s => (p.1, s)) with
      | error e =>
        intro h
        exact absurd h (by simp [Except.map, bind, Except.bind, ht])
      | ok rt =>
        intro h
        have hr : r = (p.1, b) :: rt := by
          simp only [Except.map, bind, Except.bind, ht, pure, Except.pure] at h
          exact (Except.ok.inj h).symm
        obtain ⟨ih1, ih2⟩ := ih rt ht
        subst hr
        refine ⟨by simp [ih1], ?_⟩
        intro q hq
        rcases List.mem_cons.mp hq with hq | hq
        · exact ⟨p, List.mem_cons_self p t, by rw [hq], by rw [hq]; exact hf⟩
        · obtain ⟨p', hp', h1, h2⟩ := ih2 q hq
          exact ⟨p', List.mem_cons_of_mem p hp', h1, h2⟩

theorem map_fst_filterMap_sublist {α β : Type} (f : Nat × α → Option (Nat × β))
    (hf : ∀ p q, f p = some q → q.1 = p.1) (l : List (Nat × α)) :
    ((l.filterMap f).map Prod.fst).Sublist (l.map Prod.fst) := by
  induction l with
  | nil => simp
  | cons p t ih =>
    rw [List.filterMap_cons]
    cases hfp : f p with
    | none =>
      rw [List.map_cons]
      exact ih.cons p.1
    | some q =>
      rw [List.map_cons, List.map_cons, hf p q hfp]
      exact ih.cons₂ p.1

theorem typeAliases_keys_lt {D A : Type} (items : List (Item D A)) :
    List.Pairwise (· < ·) ((typeAliases items).map Prod.fst) := by
  have hsub := map_fst_filterMap_sublist
    (fun p => match p.2 with
      | Item.typeAlias a => some (p.1, a)
      | _ => none)
    (fun p q hq => by
      obtain ⟨k, it⟩ := p
      cases it <;> simp_all <;> exact congrArg Prod.fst hq.symm) items.enum
  rw [List.enum_map_fst] at hsub
  exact List.Pairwise.sublist hsub (List.pairwise_lt_range items.length)

theorem deriveInputs_keys_lt {D A : Type} (items : List (Item D A)) :
    List.Pairwise (· < ·) ((deriveInputs items).map Prod.fst) := by
  have hsub := map_fst_filterMap_sublist
    (fun p => match p.2 with
      | Item.struct d => some (p.1, d)
      | Item.enum d => some (p.1, d)
      | _ => none)
    (fun p q hq => by
      obtain ⟨k, it⟩ := p
      cases it <;> simp_all <;> exact congrArg Prod.fst hq.symm) items.enum
  rw [List.enum_map_fst] at hsub
  exact List.Pairwise.sublist hsub (List.pairwise_lt_range items.length)

theorem typeAliases_mem {D A : Type} {items : List (Item D A)} {i : Nat} {a : A}
    (h : (i, a) ∈ typeAliases items) : items.get? i = some (.typeAlias a) := by
  rw [typeAliases] at h
  obtain ⟨p, hp, hfp⟩ := List.mem_filterMap.mp h
  have hpe : p = (i, Item.typeAlias a) := by
    obtain ⟨k, it⟩ := p
    cases it with
    | typeAlias a' =>
      simp only [Option.some.injEq, Prod.mk.injEq] at hfp
      rw [hfp.1, hfp.2]
    | struct d => exact absurd hfp (by simp)
    | enum d => exact absurd hfp (by simp)
    | mod ident content => exact absurd hfp (by simp)
    | other => exact absurd hfp (by simp)
  rw [hpe] at hp
  exact List.mk_mem_enum_iff_get?.mp hp

theorem deriveInputs_mem {D A : Type} {items : List (Item D A)} {i : Nat} {d : D}
    (h : (i, d) ∈ deriveInputs items) :
    items.get? i = some (.struct d) ∨ items.get? i = some (.enum d) := by
  rw [deriveInputs] at h
  obtain ⟨p, hp, hfp⟩ := List.mem_filterMap.mp h
  have hpe : p = (i, Item.struct d) ∨ p = (i, Item.enum d) := by
    obtain ⟨k, it⟩ := p
    cases it with
    | struct d' =>
      simp only [Option.some.injEq, Prod.mk.injEq] at hfp
      exact Or.inl (by rw [hfp.1, hfp.2])
    | enum d' =>
      simp only [Option.some.injEq, Prod.mk.injEq] at hfp
      exact Or.inr (by rw [hfp.1, hfp.2])
    | typeAlias a => exact absurd hfp (by simp)
    | mod ident content => exact absurd hfp (by simp)
    | other => exact absurd hfp (by simp)
  rcases hpe with h' | h' <;> rw [h'] at hp
  · exact Or.inl (List.mk_mem_enum_iff_get?.mp hp)
  · exact Or.inr (List.mk_mem_enum_iff_get?.mp hp)

theorem containersOf_mem {S D A C ICtx E : Type} {env : ProcessEnv S D A C ICtx E}
    {items : List (Item D A)} {i : Nat} {c : C}
    (h : (i, c) ∈ containersOf env items) :
    ∃ d, (i, d) ∈ deriveInputs items ∧ env.fromAst d = some c := by
  rw [containersOf] at h
  obtain ⟨p, hp, hfp⟩ := List.mem_filterMap.mp h
  cases hfa : env.fromAst p.2 with
  | none =>
    rw [hfa] at hfp
    exact absurd hfp (by simp)
  | some c' =>
    rw [hfa] at hfp
    simp only [Option.map_some', Option.some.injEq, Prod.mk.injEq] at hfp
    refine ⟨p.2, ?_, ?_⟩
    · rw [← hfp.1]
      simpa using hp
    · rw [hfa, hfp.2]

theorem sortStatements_sorted {S : Type} (pairs : List (Nat × List S)) :
    List.Sorted (fun p q => p.1 ≤ q.1) (sortStatements pairs) := by
  have ht : IsTotal (Nat × List S) (fun p q => p.1 ≤ q.1) :=
    ⟨fun a b => Nat.le_total a.1 b.1⟩
  have htr : IsTrans (Nat × List S) (fun p q => p.1 ≤ q.1) :=
    ⟨fun a b c hab hbc => Nat.le_trans hab hbc⟩
  exact @List.sorted_insertionSort _ _ _ ht htr pairs

theorem sortStatements_perm {S : Type} (pairs : List (Nat × List S)) :
    (sortStatements pairs).Perm pairs :=
  List.perm_insertionSort _ pairs

theorem sorted_positions {α : Type} :
    ∀ {l : List (Nat × α)},
      List.Sorted (fun p q => p.1 ≤ q.1) l → (l.map Prod.fst).Nodup →
      ∀ {i j : Nat} {si sj : α}, (i, si) ∈ l → (j, sj) ∈ l → i < j →
      ∃ n m, n < m ∧ l.get? n = some (i, si) ∧ l.get? m = some (j, sj) := by
  intro l
  induction l with
  | nil => intro _ _ _ _ _ _ hi; cases hi
  | cons p t ih =>
    intro hs hn i j si sj hi hj hij
    rw [List.sorted_cons] at hs
    rw [List.map_cons, List.nodup_cons] at hn
    rcases List.mem_cons.mp hi with hi' | hi'
    · rcases List.mem_cons.mp hj with hj' | hj'
      · rw [← hi'] at hj'
        exact absurd (congrArg Prod.fst hj') (by simpa using hij.ne')
      · obtain ⟨m, hm⟩ := List.mem_iff_get?.mp hj'
        exact ⟨0, m + 1, Nat.succ_pos m, by simpa using hi'.symm, by simpa using hm⟩
    · rcases List.mem_cons.mp hj with hj' | hj'
      · have hle : p.1 ≤ i := hs.1 (i, si) hi'
        rw [← hj'] at hle
        omega
      · obtain ⟨n, m, hnm, h1, h2⟩ := ih hs.2 hn.2 hi' hj' hij
        exact ⟨n + 1, m + 1, by omega, by simpa using h1, by simpa using h2⟩

theorem moduleStatementPairs_ok {S D A C ICtx E : Type}
    {env : ProcessEnv S D A C ICtx E} {ictx : ICtx} {items : List (Item D A)}
    {pairs : List (Nat × List S)}
    (h : moduleStatementPairs env ictx items = .ok pairs) :
    ∃ aliasStmts containerStmts,
      (typeAliases items).mapM
          (fun p => (env.exportAlias ictx p.2).map fun s => (p.1, s)) = .ok aliasStmts
      ∧ (containersOf env items).mapM
          (fun p => (env.exportContainer ictx p.2).map fun s => (p.1, s)) = .ok containerStmts
      ∧ pairs = aliasStmts ++ containerStmts := by
  revert h
  rw [moduleStatementPairs]
  cases ha : (typeAliases items).mapM
      (fun p => (env.exportAlias ictx p.2).map fun s => (p.1, s)) with
  | error e => intro h; exact absurd h (by simp [bind, Except.bind])
  | ok aliasStmts =>
    cases hc : (containersOf env items).mapM
        (fun p => (env.exportContainer ictx p.2).map fun s => (p.1, s)) with
    | error e => intro h; exact absurd h (by simp [bind, Except.bind, hc])
    | ok containerStmts =>
      intro h
      refine ⟨aliasStmts, containerStmts, rfl, rfl, ?_⟩
      simp only [bind, Except.bind, pure, Except.pure] at h
      exact (Except.ok.inj h).symm

/-- C2: within a module, the statement list preserves source declaration
order. Whenever a launch succeeds, the collected `(index, statements)` pairs
tag each per-item result with the item's original index (aliases and
struct/enum containers, resolved in the two separate passes), the flattened
output is exactly the sorted-by-index merge of the two passes (sorted modulo
permutation, with pairwise distinct indices), and the statements of the
declaration at index `i` are placed before those of the declaration at index
`j` whenever `i < j`. -/
theorem claim_C2 :
    ∀ (S D A C ICtx E : Type) (env : ProcessEnv S D A C ICtx E) (fuel : Nat)
      (pm : ProcessModule D A ICtx) (res : ProcessModuleResult S),
      ProcessModule.launch env fuel pm = .ok res →
      ∃ pairs, moduleStatementPairs env pm.import_context pm.items = .ok pairs
        ∧ res.data.statements = (sortStatements pairs).flatMap Prod.snd
        ∧ (sortStatements pairs).Perm pairs
        ∧ List.Sorted (fun p q => p.1 ≤ q.1) (sortStatements pairs)
        ∧ (pairs.map Prod.fst).Nodup
        ∧ (∀ i s, (i, s) ∈ pairs →
            (∃ a, pm.items.get? i = some (.typeAlias a)
              ∧ env.exportAlias pm.import_context a = .ok s)
            ∨ (∃ d c, (pm.items.get? i = some (.struct d)
                  ∨ pm.items.get? i = some (.enum d))
                ∧ env.fromAst d = some c
                ∧ env.exportContainer pm.import_context c = .ok s))
        ∧ (∀ i j si sj, (i, si) ∈ pairs → (j, sj) ∈ pairs → i < j →
            ∃ n m, n < m ∧ (sortStatements pairs).get? n = some (i, si)
              ∧ (sortStatements pairs).get? m = some (j, sj)) := by
  intro S D A C ICtx E env fuel pm res h
  cases fuel with
  | zero => exact absurd h (by rw [ProcessModule.launch]; simp)
  | succ fuel =>
    obtain ⟨children, pairs, hc, hp, hres⟩ := launch_succ_ok h
    obtain ⟨aliasStmts, containerStmts, ha, hcs, hpairs⟩ := moduleStatementPairs_ok hp
    obtain ⟨haKeys, haMem⟩ := mapM_tag (env.exportAlias pm.import_context) _ _ ha
    obtain ⟨hcKeys, hcMem⟩ := mapM_tag (env.exportContainer pm.import_context) _ _ hcs
    have hcontSub : ((containersOf env pm.items).map Prod.fst).Sublist
        ((deriveInputs pm.items).map Prod.fst) := by
      rw [containersOf]
      refine map_fst_filterMap_sublist _ ?_ _
      intro p q hq
      cases hfa : env.fromAst p.2 with
      | none => rw [hfa] at hq; exact absurd hq (by simp)
      | some c' =>
        rw [hfa] at hq
        simp only [Option.map_some', Option.some.injEq] at hq
        rw [← hq]
    have hnodup : (pairs.map Prod.fst).Nodup := by
      rw [hpairs, List.map_append, List.nodup_append]
      refine ⟨?_, ?_, ?_⟩
      · rw [haKeys]
        exact (typeAliases_keys_lt pm.items).imp fun hlt => Nat.ne_of_lt hlt
      · rw [hcKeys]
        exact List.Sublist.nodup hcontSub
          ((deriveInputs_keys_lt pm.items).imp fun hlt => Nat.ne_of_lt hlt)
      · rw [haKeys, hcKeys]
        intro k hk1 hk2
        obtain ⟨pa, hpa, hfa⟩ := List.mem_map.mp hk1
        obtain ⟨pc, hpc, hfc⟩ := List.mem_map.mp hk2
        have h1 := typeAliases_mem (show (pa.1, pa.2) ∈ typeAliases pm.items by
          simpa using hpa)
        obtain ⟨d, hd, _⟩ := containersOf_mem (show (pc.1, pc.2) ∈ containersOf env pm.items by
          simpa using hpc)
        have h2 := deriveInputs_mem hd
        rw [hfa] at h1
        rw [hfc] at h2
        rcases h2 with h2 | h2 <;> rw [h1] at h2 <;> exact Item.noConfusion (Option.some.inj h2)
    refine ⟨pairs, hp, ?_, sortStatements_perm pairs, sortStatements_sorted pairs,
      hnodup, ?_, ?_⟩
    · rw [hres]
      rfl
    · intro i s hmem
      rw [hpairs] at hmem
      rcases List.mem_append.mp hmem with hm | hm
      · obtain ⟨p, hp', hfst, hexp⟩ := haMem (i, s) hm
        have hfst' : p.1 = i := hfst
        refine Or.inl ⟨p.2, ?_, hexp⟩
        rw [← hfst']
        exact typeAliases_mem (show (p.1, p.2) ∈ typeAliases pm.items by simpa using hp')
      · obtain ⟨p, hp', hfst, hexp⟩ := hcMem (i, s) hm
        have hfst' : p.1 = i := hfst
        obtain ⟨d, hd, hda⟩ := containersOf_mem
          (show (p.1, p.2) ∈ containersOf env pm.items by simpa using hp')
        refine Or.inr ⟨d, p.2, ?_, hda, hexp⟩
        rw [← hfst']
        exact deriveInputs_mem hd
    · intro i j si sj hi hj hij
      have hnodup' : ((sortStatements pairs).map Prod.fst).Nodup :=
        (((sortStatements_perm pairs).map Prod.fst).nodup_iff).mpr hnodup
      exact sorted_positions (sortStatements_sorted pairs) hnodup'
        ((sortStatements_perm pairs).mem_iff.mpr hi)
        ((sortStatements_perm pairs).mem_iff.mpr hj) hij

theorem claim_C2_witness :
    ∃ pairs, moduleStatementPairs exEnv () exItems = .ok pairs
      ∧ exTree.data.statements = (sortStatements pairs).flatMap Prod.snd
      ∧ (pairs.map Prod.fst).Nodup := by
  obtain ⟨pairs, h1, h2, _, _, h5, _⟩ :=
    claim_C2 String String String String Unit Unit exEnv 2
      (ProcessModule.new exEnv [] exItems) exTree rfl
  exact ⟨pairs, h1, h2, h5⟩

theorem claim_C3_witness :
    exEnv.spawner (([] : ModPath) ++ ["x"]) = none
    ∧ ProcessModule.launch exEnv 1 ⟨[], [Item.typeAlias "A", Item.mod "x" none], ()⟩
        = ProcessModule.launch exEnv 1 ⟨[], [Item.typeAlias "A"], ()⟩ :=
  ⟨rfl, (claim_C3 String String String String Unit Unit exEnv []
    [Item.typeAlias "A"] () "x").1 1 rfl⟩

/-- A variant of the example environment whose serde container interpreter
declines every declaration (`Container::from_ast` returning `None`). -/
def exEnvNone : ProcessEnv String String String String Unit Unit :=
  ⟨fun _ => (), fun _ => none, fun _ a => .ok [a], fun _ c => .ok [c],
    fun _ => none, ()⟩

theorem claim_C9_witness :
    exEnvNone.fromAst "C" = none
    ∧ ProcessModule.launch exEnvNone 1 ⟨[], [Item.struct "C"], ()⟩
        = ProcessModule.launch exEnvNone 1 ⟨[], [], ()⟩ :=
  ⟨rfl, (claim_C9 String String String String Unit Unit exEnvNone [] [] () "C" 1 rfl).1⟩

/-- Model of `PredefinedType` (src/src/types.rs:132-148). -/
inductive PredefinedType where
  | any
  | number
  | boolean
  | string
  | unknown
  | null
  | never
deriving Repr, DecidableEq

/-- Rendering of `PredefinedType`, following its `#[display]` keywords
(src/src/types.rs:132-148). -/
def renderPredefinedType : PredefinedType → String
  | .any => "any"
  | .number => "number"
  | .boolean => "boolean"
  | .string => "string"
  | .unknown => "unknown"
  | .null => "null"
  | .never => "never"

/-- Model of `TypeName` (src/src/types.rs:42-50): an identifier plus an
optional namespace chain (the Rust field is called `namespace`, a Lean
keyword, so it is `ns` here). -/
inductive TypeName where
  | mk (ident : String) (ns : Option TypeName)

/-- Rendering of `TypeName` per its template (src/src/types.rs:42-46): the
namespace (when present) followed by a dot, then the identifier. -/
def renderTypeName : TypeName → String
  | .mk ident none => ident
  | .mk ident (some ns) => renderTypeName ns ++ "." ++ ident

/-- Model of `LiteralType` (src/src/types.rs:32-40). The literal wrappers
live in `common.rs`, outside src/; the quoted rendering of string literals is
fixed by the tests in src/src/types.rs (`display_property_signature`,
`display_type_body`). -/
inductive LiteralType where
  | stringLiteral (s : String)
  | numericLiteral (n : Int)
  | booleanLiteral (b : Bool)
deriving Repr, DecidableEq

/-- Rendering of `LiteralType`. -/
def renderLiteralType : LiteralType → String
  | .stringLiteral s => "\"" ++ s ++ "\""
  | .numericLiteral n => toString n
  | .booleanLiteral b => if b then "true" else "false"

/-- Model of `PropertyName` (src/src/types.rs:108-114). -/
inductive PropertyName where
  | identifier (s : String)
  | stringLiteral (s : String)
deriving Repr, DecidableEq

/-- Rendering of `PropertyName`: identifiers render bare, string-literal
names render quoted (test `display_property_signature`). -/
def renderPropertyName : PropertyName → String
  | .identifier s => s
  | .stringLiteral s => "\"" ++ s ++ "\""

/-- Model of `TypeParameters` (src/src/types.rs:20-24). -/
structure TypeParameters where
  identifiers : List String
deriving Repr, DecidableEq

/-- Rendering of `TypeParameters` per its template
`"<{{ identifiers|join(\", \") }}>"` (src/src/types.rs:20-24): no whitespace
between the angle brackets and the entries. -/
def renderTypeParameters (tp : TypeParameters) : String :=
  "<" ++ String.intercalate ", " tp.identifiers ++ ">"

mutual
/-- Model of `TsType` (src/src/types.rs:58-64). -/
inductive TsType where
  | primaryType (p : PrimaryType)
  | unionType (u : UnionType)
/-- Model of `UnionType` (src/src/types.rs:73-77). -/
inductive UnionType where
  | mk (types : List TsType)
/-- Model of `PrimaryType` (src/src/types.rs:116-130). -/
inductive PrimaryType where
  | predefined (p : PredefinedType)
  | typeReference (r : TypeReference)
  | objectType (o : ObjectType)
  | arrayType (a : ArrayType)
  | tupleType (t : TupleType)
  | literalType (l : LiteralType)
/-- Model of `TypeReference` (src/src/types.rs:66-71). -/
inductive TypeReference where
  | mk (name : TypeName) (args : Option TypeArguments)
/-- Model of `TypeArguments` (src/src/types.rs:52-56). -/
inductive TypeArguments where
  | mk (types : List TsType)
/-- Model of `ObjectType` (src/src/types.rs:79-83). -/
inductive ObjectType where
  | mk (body : Option TypeBody)
/-- Model of `TypeBody` (src/src/types.rs:85-89). -/
inductive TypeBody where
  | mk (members : List TypeMember)
/-- Model of `TypeMember` (src/src/types.rs:91-95). -/
inductive TypeMember where
  | propertySignature (p : PropertySignature)
/-- Model of `PropertySignature` (src/src/types.rs:97-106). -/
inductive PropertySignature where
  | mk (name : PropertyName) (optional : Bool) (inner_type : TsType)
/-- Model of `ArrayType` (src/src/types.rs:6-18). -/
inductive ArrayType where
  | mk (inner_type : PrimaryType)
/-- Model of `TupleType` (src/src/types.rs:26-30). -/
inductive TupleType where
  | mk (inner_types : List TsType)
end

mutual
/-- Rendering of `TsType` via its `#[display("{0}")]` delegation. -/
def renderTsType : TsType → String
  | .primaryType p => renderPrimaryType p
  | .unionType u => renderUnionType u
termination_by t => sizeOf t
/-- Rendering of `PrimaryType` via its `#[display("{0}")]` delegation. -/
def renderPrimaryType : PrimaryType → String
  | .predefined p => renderPredefinedType p
  | .typeReference r => renderTypeReference r
  | .objectType o => renderObjectType o
  | .arrayType a => renderArrayType a
  | .tupleType t => renderTupleType t
  | .literalType l => renderLiteralType l
termination_by p => sizeOf p
/-- Rendering of `UnionType` per its template: members joined by `" | "`. -/
def renderUnionType : UnionType → String
  | .mk types => String.intercalate " | " (renderTsTypeList types)
termination_by u => sizeOf u
/-- Rendering of `TypeReference` per its template: the name followed by the
arguments when present (`display_opt` renders `None` as the empty string,
per test `display_primary_type`). -/
def renderTypeReference : TypeReference → String
  | .mk name none => renderTypeName name
  | .mk name (some a) => renderTypeName name ++ renderTypeArguments a
termination_by r => sizeOf r
/-- Rendering of `TypeArguments` per its template
`"< {{ types|join(\", \") }} >"` (src/src/types.rs:52-56): note the space
after `<` and before `>`. -/
def renderTypeArguments : TypeArguments → String
  | .mk types => "< " ++ String.intercalate ", " (renderTsTypeList types) ++ " >"
termination_by a => sizeOf a
/-- Rendering of `ObjectType` per its whitespace-trimmed template: braces
with the optional body in between (`display_object_type` checks the empty
body case). -/
def renderObjectType : ObjectType → String
  | .mk none => "\x7b\x7d"
  | .mk (some b) => "\x7b" ++ renderTypeBody b ++ "\x7d"
termination_by o => sizeOf o
/-- Rendering of `TypeBody` per its template: members joined by `",\n"`. -/
def renderTypeBody : TypeBody → String
  | .mk members => String.intercalate ",\n" (renderTypeMemberList members)
termination_by b => sizeOf b
/-- Rendering of `TypeMember` via its `#[display("{0}")]` delegation. -/
def renderTypeMember : TypeMember → String
  | .propertySignature p => renderPropertySignature p
termination_by m => sizeOf m
/-- Rendering of `PropertySignature` per its template: the name, `?` when
optional, then `: ` and the inner type. -/
def renderPropertySignature : PropertySignature → String
  | .mk name optional inner =>
    renderPropertyName name ++ (if optional then "?" else "") ++ ": " ++ renderTsType inner
termination_by p => sizeOf p
/-- Rendering of `ArrayType` per its template `"{{ inner_type }}[]"`. -/
def renderArrayType : ArrayType → String
  | .mk inner => renderPrimaryType inner ++ "[]"
termination_by a => sizeOf a
/-- Rendering of `TupleType` per its template `"[ {{ inner_types|join(\", \") }} ]"`. -/
def renderTupleType : TupleType → String
  | .mk types => "[ " ++ String.intercalate ", " (renderTsTypeList types) ++ " ]"
termination_by t => sizeOf t
/-- Elementwise rendering of a list of types (the `join` filter's input). -/
def renderTsTypeList : List TsType → List String
  | [] => []
  | t :: ts => renderTsType t :: renderTsTypeList ts
termination_by l => sizeOf l
/-- Elementwise rendering of a list of members. -/
def renderTypeMemberList : List TypeMember → List String
  | [] => []
  | m :: ms => renderTypeMember m :: renderTypeMemberList ms
termination_by l => sizeOf l
end

theorem renderTsTypeList_eq_map : ∀ l : List TsType, renderTsTypeList l = l.map renderTsType
  | [] => by rw [renderTsTypeList, List.map_nil]
  | t :: ts => by rw [renderTsTypeList, List.map_cons, renderTsTypeList_eq_map ts]

/-- The type reference `A` (no namespace, no arguments). -/
def exTypeA : TsType := .primaryType (.typeReference (.mk (.mk "A" none) none))

/-- The type reference `B` (no namespace, no arguments). -/
def exTypeB : TsType := .primaryType (.typeReference (.mk (.mk "B" none) none))

/-- The type-argument list holding `A` and `B`. -/
def exTypeArguments : TypeArguments := .mk [exTypeA, exTypeB]

/-- C7 counterexample: a `TypeArguments` list of `A` and `B` does not render
as `<A, B>` — the template `"< {{ types|join(\", \") }} >"` puts a space
after `<` and before `>`, so it renders `< A, B >`. -/
theorem claim_C7_counterexample : renderTypeArguments exTypeArguments ≠ "<A, B>" := by
  rw [show renderTypeArguments exTypeArguments = "< A, B >" by
    rw [exTypeArguments, renderTypeArguments, renderTsTypeList, renderTsTypeList,
      renderTsTypeList, exTypeA, exTypeB, renderTsType, renderTsType,
      renderPrimaryType, renderPrimaryType, renderTypeReference, renderTypeReference,
      renderTypeName, renderTypeName]
    rfl]
  decide

/-- C7 (amended): a declaration's type-parameter list (`TypeParameters`)
renders as `<`, the entries joined by `", "`, and `>`, with no whitespace
inside the brackets (e.g. `<A, B>`); a type reference's type-argument list
(`TypeArguments`) instead renders with a single space inside each bracket:
`< `, the entries joined by `", "`, and ` >` (e.g. `< A, B >`). -/
theorem claim_C7 :
    (∀ tp : TypeParameters,
      renderTypeParameters tp = "<" ++ String.intercalate ", " tp.identifiers ++ ">")
    ∧ renderTypeParameters ⟨["A", "B"]⟩ = "<A, B>"
    ∧ (∀ args : List TsType, renderTypeArguments (.mk args)
        = "< " ++ String.intercalate ", " (args.map renderTsType) ++ " >")
    ∧ renderTypeArguments exTypeArguments = "< A, B >" := by
  refine ⟨fun tp => rfl, by decide, fun args => ?_, ?_⟩
  · rw [renderTypeArguments, renderTsTypeList_eq_map]
  · rw [exTypeArguments, renderTypeArguments, renderTsTypeList, renderTsTypeList,
      renderTsTypeList, exTypeA, exTypeB, renderTsType, renderTsType,
      renderPrimaryType, renderPrimaryType, renderTypeReference, renderTypeReference,
      renderTypeName, renderTypeName]
    rfl

/-- Minimal model of `syn::Type`, exactly as far as the solvers under src/
inspect it: a path type is its segment list (identifier plus angle-bracketed
type arguments per segment), array and slice types carry their element type,
references their target, tuples their elements; every other variant is
`other`. -/
inductive SynType where
  | path (segments : List (String × List SynType))
  | array (elem : SynType)
  | slice (elem : SynType)
  | reference (elem : SynType)
  | tuple (elems : List SynType)
  | other

/-- Modelled from the spec: the error kinds of §7 (`error.rs` is not under
src/). `UnresolvableType` names the unresolved source expression,
`UnexpectedType` carries the shape the caller could not embed; the remaining
kinds are collapsed into `otherError`. -/
inductive TsExportError where
  | unresolvableType (ty : SynType)
  | unexpectedType (ty : TsType)
  | otherError (message : String)

/-- Model of `SolverResult<T, E>` (spec §3): `cont` is `Continue` (try the
next solver), `solved` carries the resolved value, `error` aborts. -/
inductive SolverResult (T E : Type) where
  | cont
  | solved (value : T)
  | error (err : E)

/-- Model of `TypeInfo` (spec §3): the source type expression under the
active generics scope `G` (the solvers under src/ never inspect the scope,
they only thread it). -/
structure TypeInfo (G : Type) where
  generics : G
  ty : SynType

/-- Model of `ArraySolver::solve_as_type` (src/ts_export/src/solvers/array.rs:12-41).
`solve` stands for `solving_context.solve_type`, the chain's recursive
resolution entry point (`exporter_context.rs` is outside the modelled core):
an array or slice re-resolves its element under the same generics, a primary
result is wrapped as an `ArrayType`, a non-primary result is an
`UnexpectedType` error, a resolution error propagates, and any other
expression defers with `Continue`. -/
def arraySolverSolve {G : Type} (solve : TypeInfo G → Except TsExportError TsType)
    (info : TypeInfo G) : SolverResult TsType TsExportError :=
  match (match info.ty with
         | .array elem => some (solve ⟨info.generics, elem⟩)
         | .slice elem => some (solve ⟨info.generics, elem⟩)
         | _ => none) with
  | none => .cont
  | some (.ok (.primaryType primary)) =>
    .solved (.primaryType (.arrayType (.mk primary)))
  | some (.ok ts_ty) => .error (.unexpectedType ts_ty)
  | some (.error e) => .error e

/-- C5: for an array or slice element `E`, the Array solver re-resolves `E`
under the same generics scope; a primary result is returned `Solved` wrapped
as `ArrayType`, a non-primary result (a union) yields
`Error(UnexpectedType)` carrying that shape, a failed resolution propagates
its error, and any expression that is neither an array nor a slice yields
`Continue`. -/
theorem claim_C5 :
    ∀ (G : Type) (solve : TypeInfo G → Except TsExportError TsType) (g : G)
      (e : SynType),
    (∀ p, solve ⟨g, e⟩ = .ok (.primaryType p) →
      arraySolverSolve solve ⟨g, .array e⟩
          = .solved (.primaryType (.arrayType (.mk p)))
      ∧ arraySolverSolve solve ⟨g, .slice e⟩
          = .solved (.primaryType (.arrayType (.mk p))))
    ∧ (∀ u, solve ⟨g, e⟩ = .ok (.unionType u) →
      arraySolverSolve solve ⟨g, .array e⟩ = .error (.unexpectedType (.unionType u))
      ∧ arraySolverSolve solve ⟨g, .slice e⟩ = .error (.unexpectedType (.unionType u)))
    ∧ (∀ err, solve ⟨g, e⟩ = .error err →
      arraySolverSolve solve ⟨g, .array e⟩ = .error err
      ∧ arraySolverSolve solve ⟨g, .slice e⟩ = .error err)
    ∧ (∀ ty, (∀ e', ty ≠ .array e') → (∀ e', ty ≠ .slice e') →
      arraySolverSolve solve ⟨g, ty⟩ = .cont) := by
  intro G solve g e
  refine ⟨?_, ?_, ?_, ?_⟩
  · intro p h
    constructor <;> (rw [arraySolverSolve]; dsimp only; rw [h])
  · intro u h
    constructor <;> (rw [arraySolverSolve]; dsimp only; rw [h])
  · intro err h
    constructor <;> (rw [arraySolverSolve]; dsimp only; rw [h])
  · intro ty harr hsl
    cases ty with
    | array e' => exact absurd rfl (harr e')
    | slice e' => exact absurd rfl (hsl e')
    | path segments => rfl
    | reference e' => rfl
    | tuple elems => rfl
    | other => rfl

theorem claim_C5_witness :
    (fun (_ : TypeInfo Unit) =>
        (Except.ok (TsType.primaryType (.predefined .number)) :
          Except TsExportError TsType)) ⟨(), SynType.other⟩
      = .ok (.primaryType (.predefined .number))
    ∧ arraySolverSolve
        (fun (_ : TypeInfo Unit) =>
          (Except.ok (TsType.primaryType (.predefined .number)) :
            Except TsExportError TsType))
        ⟨(), .array .other⟩
      = .solved (.primaryType (.arrayType (.mk (.predefined .number)))) :=
  ⟨rfl, ((claim_C5 Unit
    (fun _ => .ok (.primaryType (.predefined .number))) () .other).1
      (.predefined .number) rfl).1⟩

/-- Model of typebinder's `Solved<T>` (spec §3; `result.rs` is not under
src/): the resolved value plus the accumulated import entries (an abstract
type `I`, only threaded by the collections solver) and the accumulated
generic-extends constraints (identifier, bound). The real constraint
container is a deduplicated set; recording order is kept here and
deduplication is irrelevant to the claims. -/
structure Solved (T I : Type) where
  inner : T
  import_entries : I
  generic_constraints : List (String × TsType)

/-- Model of `Solved::map`: maps the value, keeps both side channels. -/
def Solved.map {T U I : Type} (f : T → U) (s : Solved T I) : Solved U I :=
  ⟨f s.inner, s.import_entries, s.generic_constraints⟩

/-- Model of `GenericConstraints::add_extends_constraint` (spec §3 and §4.2
item 4; the constraints module is not under src/): records one
`ident extends bound` entry. -/
def addExtendsConstraint (cs : List (String × TsType)) (ident : String)
    (bound : TsType) : List (String × TsType) :=
  cs ++ [(ident, bound)]

/-- Modelled from the spec: the reserved words a TS identifier may not be
(ts_json_subset's `ident.rs` is not under src/). -/
def tsReservedKeywords : List String :=
  ["break", "case", "catch", "class", "const", "continue", "debugger",
   "default", "delete", "do", "else", "enum", "export", "extends", "false",
   "finally", "for", "function", "if", "import", "in", "instanceof", "new",
   "null", "return", "super", "switch", "this", "throw", "true", "try",
   "typeof", "var", "void", "while", "with"]

/-- Modelled from the spec: validity of a TS identifier, for
`TSIdent::from_str` (ts_json_subset's `ident.rs` is not under src/): nonempty,
the first character a letter, underscore or dollar, the rest alphanumeric,
underscore or dollar, and not a reserved keyword. -/
def isValidTSIdent (s : String) : Bool :=
  match s.data with
  | [] => false
  | c :: cs =>
    (c.isAlpha || c = '_' || c = '$')
      && cs.all (fun c' => c'.isAlphanum || c' = '_' || c' = '$')
      && !(tsReservedKeywords.contains s)

/-- Modelled from the spec: `TSIdent::from_str`, returning the validated
identifier or failing; `.unwrap()` on a failure is a panic, which the
collections-solver model surfaces as `none`. -/
def tsIdentFromStr (s : String) : Option String :=
  if isValidTSIdent s then some s else none

/-- Modelled from the spec: `DisplayPath` (`display_path.rs` is not under
src/) renders a path as its `::`-separated segment identifiers, which is what
the catalog keys such as `"std::vec::Vec"` are matched against. -/
def displayPath (segments : List (String × List SynType)) : String :=
  String.intercalate "::" (segments.map Prod.fst)

/-- Model of `solve_seq`
(src/typebinder/src/type_solving/solvers/collections.rs:25-53). `sseg` stands
for `solve_segment_generics` (typebinder's `utils/inner_generic.rs`, outside
the modelled core): it resolves the last segment's generic arguments under
the scope, returning the resolved types plus side channels. A non-path
expression defers. The `expect`/index panics (empty path, no resolved
argument) are modelled as `none`; a primary first resolved type is wrapped as
`ArrayType` with the side channels passed through, any other shape is an
`UnexpectedType` error, and a resolution error propagates. -/
def solveSeq {G I : Type}
    (sseg : G → (String × List SynType) → Except TsExportError (Solved (List TsType) I))
    (info : TypeInfo G) : Option (SolverResult (Solved TsType I) TsExportError) :=
  match info.ty with
  | .path segments =>
    match segments.getLast? with
    | none => none
    | some segment =>
      match sseg info.generics segment with
      | .ok solved =>
        match solved.inner with
        | [] => none
        | TsType.primaryType prim :: _ =>
          some (.solved ⟨.primaryType (.arrayType (.mk prim)),
            solved.import_entries, solved.generic_constraints⟩)
        | t :: _ => some (.error (.unexpectedType t))
      | .error e => some (.error e)
  | _ => some .cont

/-- Model of `solve_map`
(src/typebinder/src/type_solving/solvers/collections.rs:55-85): the first two
resolved arguments (key, value) become the arguments of a `TypeReference`
named `Record` (typebinder's `TSIdent` name is modelled as a namespace-free
`TypeName`), the side channels are passed through, and an extends-`string`
constraint is recorded for the identifier obtained by rendering the resolved
key type and re-parsing it with `TSIdent::from_str(..).unwrap()`. The
index panics (fewer than two resolved arguments) and the `unwrap` panic (key
rendering not a valid identifier) are modelled as `none`. -/
def solveMap {G I : Type}
    (sseg : G → (String × List SynType) → Except TsExportError (Solved (List TsType) I))
    (info : TypeInfo G) : Option (SolverResult (Solved TsType I) TsExportError) :=
  match info.ty with
  | .path segments =>
    match segments.getLast? with
    | none => none
    | some segment =>
      match sseg info.generics segment with
      | .ok solved =>
        match solved.inner with
        | k :: v :: _ =>
          match tsIdentFromStr (renderTsType k) with
          | none => none
          | some keyIdent =>
            some (.solved ⟨.primaryType (.typeReference
                (.mk (.mk "Record" none) (some (.mk [k, v])))),
              solved.import_entries,
              addExtendsConstraint solved.generic_constraints keyIdent
                (.primaryType (.predefined .string))⟩)
        | _ => none
      | .error e => some (.error e)
  | _ => some .cont

/-- The two kinds of entry `CollectionsSolver::default` registers: the
sequence-like solver function or the map-like solver function. -/
inductive CollectionsEntry where
  | seq
  | map
deriving Repr, DecidableEq

/-- Model of the catalog built by `CollectionsSolver::default`
(src/typebinder/src/type_solving/solvers/collections.rs:87-107), in
`add_entry` order. The Rust `PathSolver` stores the entries in a `HashMap`;
with these pairwise distinct keys its lookup is association-list lookup. -/
def collectionsEntries : List (String × CollectionsEntry) :=
  [("std::vec::Vec", .seq),
   ("std::collections::VecDeque", .seq),
   ("std::collections::HashSet", .seq),
   ("std::collections::LinkedList", .seq),
   ("std::collections::BTreeSet", .seq),
   ("std::collections::BinaryHeap", .seq),
   ("std::collections::HashMap", .map),
   ("std::collections::BTreeMap", .map)]

/-- The six sequence-like catalog keys (spec §4.2 item 4). -/
def seqCatalog : List String :=
  ["std::vec::Vec", "std::collections::VecDeque", "std::collections::HashSet",
   "std::collections::LinkedList", "std::collections::BTreeSet",
   "std::collections::BinaryHeap"]

/-- The two map-like catalog keys (spec §4.2 item 4). -/
def mapCatalog : List String :=
  ["std::collections::HashMap", "std::collections::BTreeMap"]

/-- Model of `CollectionsSolver::solve_as_type`, which delegates to
`PathSolver::solve_as_type` (src/ts_export/src/solvers/path.rs:22-40)
instantiated with the catalog above: a path type is rendered through
`DisplayPath` and looked up; a hit delegates to the registered solver
function, a miss or a non-path expression yields `Continue`. -/
def collectionsSolve {G I : Type}
    (sseg : G → (String × List SynType) → Except TsExportError (Solved (List TsType) I))
    (info : TypeInfo G) : Option (SolverResult (Solved TsType I) TsExportError) :=
  match info.ty with
  | .path segments =>
    match collectionsEntries.lookup (displayPath segments) with
    | some .seq => solveSeq sseg info
    | some .map => solveMap sseg info
    | none => some .cont
  | _ => some .cont

theorem collections_lookup_seq {s : String} (h : s ∈ seqCatalog) :
    collectionsEntries.lookup s = some .seq := by
  simp only [seqCatalog, List.mem_cons, List.not_mem_nil, or_false] at h
  rcases h with rfl | rfl | rfl | rfl | rfl | rfl <;> rfl

theorem collections_lookup_map {s : String} (h : s ∈ mapCatalog) :
    collectionsEntries.lookup s = some .map := by
  simp only [mapCatalog, List.mem_cons, List.not_mem_nil, or_false] at h
  rcases h with rfl | rfl <;> rfl

theorem collections_lookup_none {s : String} (h1 : s ∉ seqCatalog)
    (h2 : s ∉ mapCatalog) : collectionsEntries.lookup s = none := by
  simp only [seqCatalog, List.mem_cons, List.not_mem_nil, or_false, not_or] at h1
  simp only [mapCatalog, List.mem_cons, List.not_mem_nil, or_false, not_or] at h2
  obtain ⟨n1, n2, n3, n4, n5, n6⟩ := h1
  obtain ⟨n7, n8⟩ := h2
  simp [collectionsEntries, List.lookup, beq_eq_false_iff_ne.mpr n1,
    beq_eq_false_iff_ne.mpr n2, beq_eq_false_iff_ne.mpr n3,
    beq_eq_false_iff_ne.mpr n4, beq_eq_false_iff_ne.mpr n5,
    beq_eq_false_iff_ne.mpr n6, beq_eq_false_iff_ne.mpr n7,
    beq_eq_false_iff_ne.mpr n8]

/-- C4: the Collections solver resolves exactly its fixed catalog. A path
type whose rendered path is one of the six sequence-like keys, and whose last
segment's generic arguments resolve with a primary first type, yields
`Solved` with that type wrapped as `ArrayType`, side channels passed through;
a path whose rendered path is one of the two map-like keys, with resolved
(key, value) arguments and an identifier-shaped key rendering, yields
`Solved` with a `TypeReference` named `Record` over the resolved (key, value)
types, additionally recording an extends-`string` constraint for the key
identifier; any other type expression (a path outside the catalog, or a
non-path) yields `Continue`. -/
theorem claim_C4 :
    ∀ (G I : Type)
      (sseg : G → (String × List SynType) → Except TsExportError (Solved (List TsType) I))
      (g : G),
    (∀ segments segment prim rest imports constraints,
      displayPath segments ∈ seqCatalog →
      segments.getLast? = some segment →
      sseg g segment = .ok ⟨TsType.primaryType prim :: rest, imports, constraints⟩ →
      collectionsSolve sseg ⟨g, .path segments⟩
        = some (.solved ⟨.primaryType (.arrayType (.mk prim)), imports, constraints⟩))
    ∧ (∀ segments segment k v rest imports constraints keyIdent,
      displayPath segments ∈ mapCatalog →
      segments.getLast? = some segment →
      sseg g segment = .ok ⟨k :: v :: rest, imports, constraints⟩ →
      tsIdentFromStr (renderTsType k) = some keyIdent →
      collectionsSolve sseg ⟨g, .path segments⟩
        = some (.solved ⟨.primaryType (.typeReference
              (.mk (.mk "Record" none) (some (.mk [k, v])))),
            imports,
            addExtendsConstraint constraints keyIdent
              (.primaryType (.predefined .string))⟩))
    ∧ (∀ segments, displayPath segments ∉ seqCatalog →
        displayPath segments ∉ mapCatalog →
        collectionsSolve sseg ⟨g, .path segments⟩ = some .cont)
    ∧ (∀ ty, (∀ segments, ty ≠ .path segments) →
        collectionsSolve sseg ⟨g, ty⟩ = some .cont) := by
  intro G I sseg g
  refine ⟨?_, ?_, ?_, ?_⟩
  · intro segments segment prim rest imports constraints h1 h2 h3
    rw [collectionsSolve]
    dsimp only
    rw [collections_lookup_seq h1, solveSeq]
    dsimp only
    rw [h2]
    dsimp only
    rw [h3]
  · intro segments segment k v rest imports constraints keyIdent h1 h2 h3 h4
    rw [collectionsSolve]
    dsimp only
    rw [collections_lookup_map h1, solveMap]
    dsimp only
    rw [h2]
    dsimp only
    rw [h3]
    dsimp only
    rw [h4]
  · intro segments h1 h2
    rw [collectionsSolve]
    dsimp only
    rw [collections_lookup_none h1 h2]
  · intro ty hne
    cases ty with
    | path segments => exact absurd rfl (hne segments)
    | array e => rfl
    | slice e => rfl
    | reference e => rfl
    | tuple es => rfl
    | other => rfl

theorem claim_C4_witness :
    displayPath [("std", []), ("vec", []), ("Vec", [SynType.other])] ∈ seqCatalog
    ∧ collectionsSolve
        (fun (_ : Unit) (_ : String × List SynType) =>
          (Except.ok ⟨[TsType.primaryType (.predefined .number)], (), []⟩ :
            Except TsExportError (Solved (List TsType) Unit)))
        ⟨(), .path [("std", []), ("vec", []), ("Vec", [SynType.other])]⟩
      = some (.solved ⟨.primaryType (.arrayType (.mk (.predefined .number))), (), []⟩) :=
  ⟨by decide,
    (claim_C4 Unit Unit
      (fun _ _ => .ok ⟨[TsType.primaryType (.predefined .number)], (), []⟩) ()).1
      [("std", []), ("vec", []), ("Vec", [SynType.other])] ("Vec", [SynType.other])
      (.predefined .number) [] () [] (by decide) rfl rfl⟩

/-- C8: the extends-constraint identifier in `solve_map` is built by
rendering the resolved key type and re-parsing it with
`TSIdent::from_str(..).unwrap()`. When the rendering is identifier-shaped
(e.g. a generic parameter reference such as `T`) the solver returns normally;
when it is not (e.g. an object rendering `{}`), the `unwrap` panics — modelled
as `none` — instead of producing a `SolverResult.error`. -/
theorem claim_C8 :
    (∀ (G I : Type)
      (sseg : G → (String × List SynType) → Except TsExportError (Solved (List TsType) I))
      (g : G) segments segment k v rest imports constraints,
      displayPath segments ∈ mapCatalog →
      segments.getLast? = some segment →
      sseg g segment = .ok ⟨k :: v :: rest, imports, constraints⟩ →
      ((isValidTSIdent (renderTsType k) = true →
        ∃ out, collectionsSolve sseg ⟨g, .path segments⟩ = some out)
      ∧ (isValidTSIdent (renderTsType k) = false →
        collectionsSolve sseg ⟨g, .path segments⟩ = none)))
    ∧ tsIdentFromStr (renderTsType
        (TsType.primaryType (.typeReference (.mk (.mk "T" none) none)))) = some "T"
    ∧ renderTsType (TsType.primaryType (.objectType (.mk none))) = "\x7b\x7d"
    ∧ tsIdentFromStr "\x7b\x7d" = none := by
  refine ⟨?_, ?_, ?_, by decide⟩
  · intro G I sseg g segments segment k v rest imports constraints h1 h2 h3
    constructor
    · intro hval
      refine ⟨.solved ⟨.primaryType (.typeReference
          (.mk (.mk "Record" none) (some (.mk [k, v])))),
        imports,
        addExtendsConstraint constraints (renderTsType k)
          (.primaryType (.predefined .string))⟩, ?_⟩
      rw [collectionsSolve]
      dsimp only
      rw [collections_lookup_map h1, solveMap]
      dsimp only
      rw [h2]
      dsimp only
      rw [h3]
      dsimp only
      rw [show tsIdentFromStr (renderTsType k) = some (renderTsType k) by
        rw [tsIdentFromStr, if_pos hval]]
    · intro hval
      rw [collectionsSolve]
      dsimp only
      rw [collections_lookup_map h1, solveMap]
      dsimp only
      rw [h2]
      dsimp only
      rw [h3]
      dsimp only
      rw [show tsIdentFromStr (renderTsType k) = none by
        rw [tsIdentFromStr, if_neg (by rw [hval]; exact Bool.false_ne_true)]]
  · rw [renderTsType, renderPrimaryType, renderTypeReference, renderTypeName]
    decide
  · rw [renderTsType, renderPrimaryType, renderObjectType]

theorem claim_C8_witness :
    isValidTSIdent (renderTsType
      (TsType.primaryType (.typeReference (.mk (.mk "T" none) none)))) = true
    ∧ ∃ out, collectionsSolve
        (fun (_ : Unit) (_ : String × List SynType) =>
          (Except.ok ⟨[TsType.primaryType (.typeReference (.mk (.mk "T" none) none)),
             TsType.primaryType (.predefined .number)], (), []⟩ :
            Except TsExportError (Solved (List TsType) Unit)))
        ⟨(), .path [("std", []), ("collections", []), ("HashMap", [])]⟩
      = some out := by
  have hval : isValidTSIdent (renderTsType
      (TsType.primaryType (.typeReference (.mk (.mk "T" none) none)))) = true := by
    rw [renderTsType, renderPrimaryType, renderTypeReference, renderTypeName]
    decide
  refine ⟨hval, ?_⟩
  exact (claim_C8.1 Unit Unit
    (fun _ _ => .ok ⟨[TsType.primaryType (.typeReference (.mk (.mk "T" none) none)),
       TsType.primaryType (.predefined .number)], (), []⟩) ()
    [("std", []), ("collections", []), ("HashMap", [])] ("HashMap", [])
    (TsType.primaryType (.typeReference (.mk (.mk "T" none) none)))
    (TsType.primaryType (.predefined .number)) [] () []
    (by decide) rfl rfl).1 hval

/-- Modelled from the spec: `TypeSolvingContext::solve` (spec §4.2;
`type_solver.rs` is not under src/): the registered solvers are tried in
registration order, the first non-`Continue` outcome decides, and exhausting
the list yields an `UnresolvableType` error naming the unresolved
expression. -/
def solveChain {Ctx G T : Type}
    (solvers : List (Ctx → TypeInfo G → SolverResult T TsExportError))
    (ctx : Ctx) (info : TypeInfo G) : Except TsExportError T :=
  match solvers with
  | [] => .error (.unresolvableType info.ty)
  | s :: rest =>
    match s ctx info with
    | .cont => solveChain rest ctx info
    | .solved v => .ok v
    | .error e => .error e

/-- Model of `TypeSolvingContext::add_solver`: registration appends to the
ordered list. -/
def addSolver {Ctx G T : Type}
    (solvers : List (Ctx → TypeInfo G → SolverResult T TsExportError))
    (s : Ctx → TypeInfo G → SolverResult T TsExportError) :
    List (Ctx → TypeInfo G → SolverResult T TsExportError) :=
  solvers ++ [s]

/-- Model of the chain built inside `ProcessModule::launch`
(process.rs:104-113): starting from the default (empty) context, the nine
built-in solvers are registered in this order — `TupleSolver`,
`ReferenceSolver`, `ArraySolver`, `CollectionsSolver`, `PrimitivesSolver`,
`OptionSolver`, `GenericsSolver`, `ChronoSolver` (date/time), and
`ImportSolver` (the named-path fallback, here `fallbackS`). -/
def processModuleSolvers {Ctx G T : Type}
    (tupleS referenceS arrayS collectionsS primitivesS optionS genericsS
      chronoS fallbackS : Ctx → TypeInfo G → SolverResult T TsExportError) :
    List (Ctx → TypeInfo G → SolverResult T TsExportError) :=
  addSolver (addSolver (addSolver (addSolver (addSolver (addSolver (addSolver
    (addSolver (addSolver [] tupleS) referenceS) arrayS) collectionsS)
    primitivesS) optionS) genericsS) chronoS) fallbackS

theorem solveChain_all_cont {Ctx G T : Type} {ctx : Ctx} {info : TypeInfo G} :
    ∀ {solvers : List (Ctx → TypeInfo G → SolverResult T TsExportError)},
      (∀ s ∈ solvers, s ctx info = .cont) →
      solveChain solvers ctx info = .error (.unresolvableType info.ty) := by
  intro solvers
  induction solvers with
  | nil => intro _; rfl
  | cons s rest ih =>
    intro h
    rw [solveChain, h s (List.mem_cons_self s rest)]
    exact ih fun s' hs' => h s' (List.mem_cons_of_mem s hs')

theorem solveChain_skip_cont {Ctx G T : Type} {ctx : Ctx} {info : TypeInfo G} :
    ∀ (pre rest : List (Ctx → TypeInfo G → SolverResult T TsExportError)),
      (∀ s' ∈ pre, s' ctx info = .cont) →
      solveChain (pre ++ rest) ctx info = solveChain rest ctx info := by
  intro pre
  induction pre with
  | nil => intro rest _; rfl
  | cons s pre ih =>
    intro rest h
    rw [List.cons_append, solveChain, h s (List.mem_cons_self s pre)]
    exact ih rest fun s' hs' => h s' (List.mem_cons_of_mem s hs')

/-- C6: `ProcessModule::launch` registers exactly the nine built-in solvers
in the priority order Tuple, Reference, Array, Collections, Primitives,
Option, Generics, Chrono (date/time), Import (named-path fallback);
resolution tries them in that registration order and is decided by the first
solver returning a non-`Continue` outcome (`Solved` gives the value, `Error`
the error), and exhaustion of the chain yields an `UnresolvableType` error
naming the unresolved expression. -/
theorem claim_C6 :
    ∀ (Ctx G T : Type)
      (tupleS referenceS arrayS collectionsS primitivesS optionS genericsS
        chronoS fallbackS : Ctx → TypeInfo G → SolverResult T TsExportError)
      (ctx : Ctx) (info : TypeInfo G),
    processModuleSolvers tupleS referenceS arrayS collectionsS primitivesS
        optionS genericsS chronoS fallbackS
      = [tupleS, referenceS, arrayS, collectionsS, primitivesS, optionS,
          genericsS, chronoS, fallbackS]
    ∧ (∀ (pre : List (Ctx → TypeInfo G → SolverResult T TsExportError))
        (s : Ctx → TypeInfo G → SolverResult T TsExportError)
        (post : List (Ctx → TypeInfo G → SolverResult T TsExportError)),
        processModuleSolvers tupleS referenceS arrayS collectionsS primitivesS
            optionS genericsS chronoS fallbackS = pre ++ s :: post →
        (∀ s' ∈ pre, s' ctx info = .cont) →
        (∀ v, s ctx info = .solved v →
          solveChain (processModuleSolvers tupleS referenceS arrayS collectionsS
            primitivesS optionS genericsS chronoS fallbackS) ctx info = .ok v)
        ∧ (∀ e, s ctx info = .error e →
          solveChain (processModuleSolvers tupleS referenceS arrayS collectionsS
            primitivesS optionS genericsS chronoS fallbackS) ctx info = .error e))
    ∧ ((∀ s ∈ processModuleSolvers tupleS referenceS arrayS collectionsS
          primitivesS optionS genericsS chronoS fallbackS, s ctx info = .cont) →
        solveChain (processModuleSolvers tupleS referenceS arrayS collectionsS
          primitivesS optionS genericsS chronoS fallbackS) ctx info
          = .error (.unresolvableType info.ty)) := by
  intro Ctx G T tupleS referenceS arrayS collectionsS primitivesS optionS
    genericsS chronoS fallbackS ctx info
  refine ⟨rfl, ?_, fun h => solveChain_all_cont h⟩
  intro pre s post hsplit hpre
  constructor
  · intro v hv
    rw [hsplit, solveChain_skip_cont pre (s :: post) hpre, solveChain, hv]
  · intro e he
    rw [hsplit, solveChain_skip_cont pre (s :: post) hpre, solveChain, he]

theorem claim_C6_witness :
    solveChain (processModuleSolvers
        (fun (_ : Unit) (_ : TypeInfo Unit) => (SolverResult.cont : SolverResult Nat TsExportError))
        (fun _ _ => .cont) (fun _ _ => .solved 7) (fun _ _ => .cont)
        (fun _ _ => .cont) (fun _ _ => .cont) (fun _ _ => .cont)
        (fun _ _ => .cont) (fun _ _ => .cont)) () ⟨(), SynType.other⟩ = .ok 7
    ∧ solveChain (processModuleSolvers
        (fun (_ : Unit) (_ : TypeInfo Unit) => (SolverResult.cont : SolverResult Nat TsExportError))
        (fun _ _ => .cont) (fun _ _ => .cont) (fun _ _ => .cont)
        (fun _ _ => .cont) (fun _ _ => .cont) (fun _ _ => .cont)
        (fun _ _ => .cont) (fun _ _ => .cont)) () ⟨(), SynType.other⟩
      = .error (.unresolvableType SynType.other) := by
  constructor
  · exact ((claim_C6 Unit Unit Nat
      (fun _ _ => .cont) (fun _ _ => .cont) (fun _ _ => .solved 7)
      (fun _ _ => .cont) (fun _ _ => .cont) (fun _ _ => .cont)
      (fun _ _ => .cont) (fun _ _ => .cont) (fun _ _ => .cont)
      () ⟨(), SynType.other⟩).2.1
      [fun _ _ => .cont, fun _ _ => .cont] (fun _ _ => .solved 7)
      [fun _ _ => .cont, fun _ _ => .cont, fun _ _ => .cont, fun _ _ => .cont,
        fun _ _ => .cont, fun _ _ => .cont]
      rfl (by intro s' hs'; rcases List.mem_cons.mp hs' with rfl | hs' <;>
        simp_all)).1 7 rfl
  · exact (claim_C6 Unit Unit Nat
      (fun _ _ => .cont) (fun _ _ => .cont) (fun _ _ => .cont)
      (fun _ _ => .cont) (fun _ _ => .cont) (fun _ _ => .cont)
      (fun _ _ => .cont) (fun _ _ => .cont) (fun _ _ => .cont)
      () ⟨(), SynType.other⟩).2.2
      (by intro s' hs'; rcases List.mem_cons.mp hs' with rfl | hs' <;> simp_all)

end TsExport
